import Mathlib

/-!
Verification of wingman-ai behaviour claims against a shallow embedding
of the TypeScript sources (`src/server/index.ts`,
`src/composer/tools/code-writer.ts`,
`views-ui/src/Chat/features/Chat/ChatInput.tsx`).

Strings are modelled as `List Char` processed by structurally recursive
helpers so that concrete runs reduce inside the kernel.
-/

namespace Wingman

/-! Char-list string helpers modelling the JS string primitives. -/

/-- Whether `sep` is a literal prefix of the char list. -/
def isPrefixOfL : List Char → List Char → Bool
  | [], _ => true
  | _ :: _, [] => false
  | a :: as, b :: bs => a == b && isPrefixOfL as bs

/-- Split at the first occurrence of `sep` (nonempty): returns
`(before, after)` with `sep` removed, or `none` when absent.
Models the leftmost match of a JS regex/`indexOf` search. -/
def breakOnL (sep : List Char) : List Char → Option (List Char × List Char)
  | [] => none
  | c :: cs =>
    if isPrefixOfL sep (c :: cs) then
      some ([], (c :: cs).drop sep.length)
    else
      match breakOnL sep cs with
      | some (pre, post) => some (c :: pre, post)
      | none => none

/-- JS `String.prototype.split` with a nonempty separator, fuel-bounded
so that recursion is structural; fuel `s.length + 1` always suffices. -/
def splitOnFuel (sep : List Char) : Nat → List Char → List (List Char)
  | 0, s => [s]
  | Nat.succ fuel, s =>
    match breakOnL sep s with
    | none => [s]
    | some (pre, post) => pre :: splitOnFuel sep fuel post

def splitOnL (sep s : List Char) : List (List Char) :=
  splitOnFuel sep (s.length + 1) s

/-- JS `String.prototype.trim` (whitespace from both ends). -/
def trimL (s : List Char) : List Char :=
  ((s.dropWhile Char.isWhitespace).reverse.dropWhile Char.isWhitespace).reverse

/-- The part of `s` after the first occurrence of `pat`, when present. -/
def afterFirstL (pat s : List Char) : Option (List Char) :=
  (breakOnL pat s).map Prod.snd

/-- The part of `s` before the first occurrence of `pat`; the whole of
`s` when `pat` is absent.  Models a lazy group bounded by `pat` or `$`. -/
def upToL (pat s : List Char) : List Char :=
  match breakOnL pat s with
  | some (pre, _) => pre
  | none => s

/-- The chars before the first newline: a lazy `(.*?)` group (dot does
not match a newline) bounded by `(?:\n|$)`. -/
def restOfLineL (s : List Char) : List Char :=
  s.takeWhile (· != '\n')

end Wingman

namespace LSPServer

/-! Embedding of `src/server/index.ts`: the LSP request handlers. -/

/-- Result shape of `VectorQuery.retrieveDocumentsWithRelatedCode` as
consumed by the `wingman/getEmbeddings` handler. -/
structure RetrieveResult where
  relatedCodeDocs : List String
  deriving DecidableEq, Repr

/-- The `EmbeddingsResponse` record returned by the handler; a `none`
project details stands for the JS `undefined`. -/
structure EmbeddingsResponse where
  codeDocs : List String
  projectDetails : Option String
  deriving DecidableEq, Repr

/-- Embedding of the `wingman/getEmbeddings` handler: the whole body sits
in a `try` block; the retrieval and project-details steps are the two
awaited computations, each modelled as an `Except` value.  Any raised
error lands in the `catch`, after which the handler returns the fallback
`{codeDocs: [], projectDetails: ""}`. -/
def getEmbeddingsHandler (docs : Except String RetrieveResult)
    (proj : Except String (Option String)) : EmbeddingsResponse :=
  match docs with
  | .error _ => { codeDocs := [], projectDetails := some "" }
  | .ok d =>
    match proj with
    | .error _ => { codeDocs := [], projectDetails := some "" }
    | .ok p => { codeDocs := d.relatedCodeDocs, projectDetails := p }

/-- The externally visible actions `postInitialize` performs, in order. -/
inductive InitAction where
  | createModelProvider
  | createStore
  | storeInitDone (ok : Bool)
  | notifyFailedStore
  | setCodeGraph
  | createParser
  | createGenerator
  | constructIndexer
  | createQueue
  | createProjectDetails
  | generateProjectDetails
  | createIndex
  deriving DecidableEq, Repr

/-- Embedding of `postInitialize` as its action trace: when the store's
initialization reports failure (`result = false`) the handler sends the
`wingman/failedLoadingStore` request — and then falls through to build
the parser, generator, Indexer, queue and project details, and (when
embeddings are enabled) to `createIndex`, exactly as when it succeeds. -/
def postInitTrace (storeInitResult embeddingEnabled : Bool) :
    List InitAction :=
  [.createModelProvider, .createStore, .storeInitDone storeInitResult] ++
  (if storeInitResult then [] else [.notifyFailedStore]) ++
  [.setCodeGraph, .createParser, .createGenerator, .constructIndexer,
   .createQueue, .createProjectDetails, .generateProjectDetails] ++
  (if embeddingEnabled then [.createIndex] else [])

/-- A field value of the `wingman/getIndex` response: an optional boolean
(`none` is the JS `undefined` from optional chaining) or a path list. -/
inductive IndexField where
  | obool (b : Option Bool)
  | paths (ps : List String)
  deriving DecidableEq, Repr

/-- Embedding of the `wingman/getIndex` handler's returned object, as an
ordered field list: `exists` from `vectorStore?.indexExists()`,
`processing` from `indexer?.isSyncing()`, and `files` from the code
graph's symbol-table keys (defaulted to `[]`). -/
def getIndexHandler (indexExists : Option Bool) (syncing : Option Bool)
    (symbolTableKeys : List String) : List (String × IndexField) :=
  [("exists", .obool indexExists),
   ("processing", .obool syncing),
   ("files", .paths symbolTableKeys)]

/-- The externally visible actions of the `wingman/fullIndexBuild`
handler. -/
inductive FullIndexAction where
  | clearFilterCache
  | createIndex
  | processDocuments (files : List String) (forceFull : Bool)
  deriving DecidableEq, Repr

/-- Embedding of the `wingman/fullIndexBuild` handler as its action
trace: when embeddings are disabled it returns before doing anything;
otherwise it clears the filter cache, creates the index, and calls
`Indexer.processDocuments` on the URI-converted paths with
`forceFull = true`.  The URI conversion `filePathToUri` is a parameter. -/
def fullIndexBuildHandler (embeddingEnabled : Bool)
    (filePathToUri : String → String) (files : List String) :
    List FullIndexAction :=
  if !embeddingEnabled then []
  else
    [.clearFilterCache, .createIndex,
     .processDocuments (files.map filePathToUri) true]

/-- Modelled from the spec: the `DocumentQueue` (server/queue.ts is not
in the sources); it holds the pending, deduplicated batch and a disposed
flag. -/
structure DocumentQueue where
  pending : List String
  disposed : Bool
  deriving DecidableEq, Repr

/-- Modelled from the spec: `dispose()` cancels the pending debounce and
drops unflushed paths; the queue stops accepting work. -/
def DocumentQueue.dispose (_q : DocumentQueue) : DocumentQueue :=
  { pending := [], disposed := true }

/-- Modelled from the spec: a flush hands the accumulated batch to the
Indexer and empties the queue; a disposed queue accepts no further
flushes, so no batch is handed over. -/
def DocumentQueue.flush (q : DocumentQueue) :
    DocumentQueue × Option (List String) :=
  if q.disposed then (q, none)
  else ({ q with pending := [] }, some q.pending)

/-- Modelled from the spec: `enqueue` after `dispose()` is a no-op;
otherwise the path is merged into the pending batch, last enqueue wins. -/
def DocumentQueue.enqueue (q : DocumentQueue) (p : String) : DocumentQueue :=
  if q.disposed then q
  else { q with pending := q.pending.filter (· != p) ++ [p] }

/-- The mutable server state the `wingman/deleteIndex` handler touches:
vector-store entries, graph nodes, the hash cache, and the document
queue. -/
structure SystemState where
  storeEntries : List (String × String)
  graphNodes : List String
  cacheEntries : List (String × String)
  queue : DocumentQueue
  deriving DecidableEq, Repr

/-- The pre-index state `postInitialize` rebuilds: empty store, graph and
cache, and a fresh (undisposed, empty) queue. -/
def freshSystem : SystemState :=
  { storeEntries := [], graphNodes := [], cacheEntries := [],
    queue := { pending := [], disposed := false } }

/-- Embedding of the `wingman/deleteIndex` handler: it deletes the vector
store's index, disposes the current queue, and then re-runs
`postInitialize`, which replaces every component with a fresh instance.
The result pairs the rebuilt state with the old, disposed queue object. -/
def deleteIndexHandler (s : SystemState) : SystemState × DocumentQueue :=
  let storeCleared := { s with storeEntries := [] }
  let oldQueue := storeCleared.queue.dispose
  (freshSystem, oldQueue)

/-- The indexed state the `wingman/indexerSettings` handler can touch.
The file records, graph and vector entries are modelled from the spec
(the Indexer itself is not in the sources). -/
structure IndexState where
  fileRecords : List (String × String)
  graphNodes : List String
  graphEdges : List (String × String)
  vectorEntries : List (String × String)
  cache : List (String × String)
  filterCache : List String
  inclusionFilter : String
  deriving DecidableEq, Repr

/-- Modelled from the spec: `Indexer.setInclusionFilter` replaces the
predicate used to accept/reject paths during scans, nothing else. -/
def setInclusionFilter (s : IndexState) (f : String) : IndexState :=
  { s with inclusionFilter := f }

/-- Modelled from the spec: `Indexer.clearCache` drops the in-memory
hash cache, forcing re-comparison (not re-embedding) on the next pass. -/
def clearCache (s : IndexState) : IndexState :=
  { s with cache := [] }

/-- `clearFilterCache` from server/files/utils: drops the cached filter
match results. -/
def clearFilterCache (s : IndexState) : IndexState :=
  { s with filterCache := [] }

/-- Embedding of the `wingman/indexerSettings` handler: it clears the
filter cache, installs the new inclusion filter, and clears the hash
cache. -/
def indexerSettingsHandler (s : IndexState) (newFilter : String) :
    IndexState :=
  clearCache (setInclusionFilter (clearFilterCache s) newFilter)

end LSPServer

namespace VectorQuery

/-! Read path, `VectorQuery.retrieveDocumentsWithRelatedCode`.
Modelled from the spec (server/query.ts is not in the sources): embed the
query, take the top-`k` entries by similarity, expand each hit through
the code graph at depth 1 up to a bound, and deduplicate by path. -/

/-- A persisted vector-store entry: file path plus embedding (similarity
scores are modelled over `Int`). -/
structure VectorEntry where
  path : String
  embedding : List Int
  deriving DecidableEq, Repr

/-- Inner-product similarity between two embeddings. -/
def dotProduct : List Int → List Int → Int
  | [], _ => 0
  | _, [] => 0
  | a :: as, b :: bs => a * b + dotProduct as bs

/-- Stable insertion into a list sorted by descending score. -/
def insertRanked (x : String × Int) :
    List (String × Int) → List (String × Int)
  | [] => [x]
  | y :: ys => if y.2 < x.2 then x :: y :: ys else y :: insertRanked x ys

/-- Stable sort by descending score. -/
def rankDesc : List (String × Int) → List (String × Int)
  | [] => []
  | x :: xs => insertRanked x (rankDesc xs)

/-- Deduplicate, keeping the first (highest-ranked) occurrence. -/
def dedupAux (seen : List String) : List String → List String
  | [] => []
  | p :: ps =>
    if seen.contains p then dedupAux seen ps
    else p :: dedupAux (p :: seen) ps

def dedupKeepFirst : List String → List String :=
  dedupAux []

/-- Modelled from the spec: `CodeGraph.getRelated(path, 1)` — the file
paths one hop from `p` along the directed file→file edges. -/
def getRelated (edges : List (String × String)) (p : String) :
    List String :=
  (edges.filter (fun e => e.1 == p)).map Prod.snd ++
  (edges.filter (fun e => e.2 == p)).map Prod.fst

/-- Modelled from the spec: the read path.  Scores every entry against
the query embedding, ranks them, keeps the top `k` distinct paths, then
expands through the graph at depth 1, adding at most `expansionCap`
related paths not already present. -/
def retrieveDocumentsWithRelatedCode (store : List VectorEntry)
    (edges : List (String × String)) (queryEmbedding : List Int)
    (k expansionCap : Nat) : List String :=
  let scored := store.map (fun e => (e.path, dotProduct queryEmbedding e.embedding))
  let ranked := rankDesc scored
  let hits := dedupKeepFirst ((ranked.take k).map Prod.fst)
  let related := dedupKeepFirst (hits.map (getRelated edges)).flatten
  let expansion := (related.filter (fun p => !hits.contains p)).take expansionCap
  hits ++ expansion

end VectorQuery

namespace CodeWriter

/-! Embedding of `src/composer/tools/code-writer.ts`: the `DELIMITERS`
constants, `parseResponse`, and `CodeWriter.codeWriterStep`. -/

open Wingman

def STEPS_START : String := "===STEPS_START==="
def STEPS_END : String := "===STEPS_END==="
def STEP_START : String := "---STEP---"
def STEP_END : String := "---END_STEP---"
def FILE_START : String := "===FILE_START==="
def FILE_END : String := "===FILE_END==="

/-- One parsed manual step: `{description, command?}`. -/
structure Step where
  description : String
  command : Option String
  deriving DecidableEq, Repr

/-- The `file` part of a `CodeResponse`; `changes` starts out `[]` and
is always an array after parsing. -/
structure RespFile where
  path : String
  code : String
  markdownLanguage : String
  changes : List String
  deriving DecidableEq, Repr

structure CodeResponse where
  steps : List Step
  file : RespFile
  deriving DecidableEq, Repr

/-- The `extractSection` helper: the JS regex
`start\n([\s\S]*?)\nend` matched against `content`, i.e. the trimmed
text between the first `start` line and the first following `end`
line, or `""` when either delimiter is missing. -/
def extractSection (first fin content : String) : String :=
  match afterFirstL (first.data ++ ['\n']) content.data with
  | none => ""
  | some rest =>
    match breakOnL (['\n'] ++ fin.data) rest with
    | none => ""
    | some (pre, _) => ⟨trimL pre⟩

/-- One step block: `Description: (.*?)(?:\nCommand:|$)` and
`Command: (.*?)$`; a block with no `Description:` yields no step. -/
def parseStep (block : String) : Option Step :=
  match afterFirstL "Description: ".data block.data with
  | none => none
  | some rest =>
    some { description := ⟨trimL (upToL "\nCommand:".data rest)⟩
           command := (afterFirstL "Command: ".data block.data).map
             (fun r => (⟨trimL r⟩ : String)) }

/-- The steps section: split on `---STEP---`, drop blank blocks, cut
each block at `---END_STEP---`, and parse each block. -/
def parseSteps (stepsContent : String) : List Step :=
  let blocks := (splitOnL STEP_START.data stepsContent.data).filter
    (fun b => !(trimL b).isEmpty)
  let blocks := blocks.map (fun b => trimL (upToL STEP_END.data b))
  blocks.filterMap (fun b => parseStep ⟨b⟩)

/-- The file section: `Path:` and `Language:` take the rest of their
line, `Code:` runs until `\nChanges:` or the end, and `Changes:` lines
starting with `"- "` become the changes list. -/
def parseFileSection (fileContent : String) : RespFile :=
  let path : String := match afterFirstL "Path: ".data fileContent.data with
    | none => ""
    | some r => ⟨trimL (restOfLineL r)⟩
  let lang : String := match afterFirstL "Language: ".data fileContent.data with
    | none => ""
    | some r => ⟨trimL (restOfLineL r)⟩
  let code : String := match afterFirstL "Code:\n".data fileContent.data with
    | none => ""
    | some r => ⟨trimL (upToL "\nChanges:".data r)⟩
  let changes : List String :=
    match afterFirstL "Changes:\n".data fileContent.data with
    | none => []
    | some r =>
      (((splitOnL ['\n'] r).map trimL).filter
        (fun l => isPrefixOfL "- ".data l)).map (fun l => (⟨l.drop 2⟩ : String))
  { path := path, code := code, markdownLanguage := lang, changes := changes }

/-- Embedding of `parseResponse`: a total function — every JS operation
it performs (regex match with null checks, split, trim, slice) returns
normally, so every input yields a `CodeResponse`. -/
def parseResponse (response : String) : CodeResponse :=
  let stepsContent := extractSection STEPS_START STEPS_END response
  let steps := if stepsContent = "" then [] else parseSteps stepsContent
  let fileContent := extractSection FILE_START FILE_END response
  let file := if fileContent = "" then
    { path := "", code := "", markdownLanguage := "", changes := [] }
  else parseFileSection fileContent
  { steps := steps, file := file }

/-- The `FileMetadata` fields `codeWriterStep` reads and writes. -/
structure FileMetadata where
  path : String
  code : String
  language : String
  changes : List String
  deriving DecidableEq, Repr

/-- The plan `codeWriterStep` resolves with. -/
structure WriterPlan where
  files : List FileMetadata
  summary : String
  steps : List Step
  deriving DecidableEq, Repr

/-- The `{path: "BLANK", changes: [], code: ""}` default used when the
state has no planned files. -/
def blankFile : FileMetadata :=
  { path := "BLANK", code := "", language := "", changes := [] }

/-- One loop iteration of `codeWriterStep`: parse the model response,
append its steps, and — when the response's path is new and its changes
list is non-empty — look the path up in the planned files and push the
updated record; a path not found in the plan is dropped. -/
def writerIter (planned : List FileMetadata)
    (acc : List FileMetadata × List Step) (resp : String) :
    List FileMetadata × List Step :=
  let result := parseResponse resp
  let fileChanged := !result.file.changes.isEmpty
  let steps' := acc.2 ++ result.steps
  let files' :=
    if !(acc.1.any (fun f => f.path == result.file.path)) && fileChanged then
      match planned.find? (fun f => f.path == result.file.path) with
      | some stateFile =>
        acc.1 ++ [{ stateFile with
            language := result.file.markdownLanguage,
            code := result.file.code,
            changes := result.file.changes }]
      | none => acc.1
    else acc.1
  (files', steps')

/-- `state.plan?.files || [BLANK default]`: the list the loop iterates
over (a present-but-empty list is truthy in JS and iterates zero
times). -/
def iterFiles (planFiles : Option (List FileMetadata)) : List FileMetadata :=
  planFiles.getD [blankFile]

/-- Embedding of `CodeWriter.codeWriterStep`: the model's response for
iteration `i` is `invoke i`; after the loop, an empty collected-files
list raises `NoFilesChangedError` (`Except.error`), otherwise the
updated plan is returned. -/
def codeWriterStep (planFiles : Option (List FileMetadata))
    (summary : Option String) (invoke : Nat → String) :
    Except String WriterPlan :=
  let planned := planFiles.getD []
  let acc := (List.range (iterFiles planFiles).length).foldl
    (fun acc i => writerIter planned acc (invoke i)) ([], [])
  if acc.1.isEmpty then Except.error "No files have been changed."
  else Except.ok { files := acc.1, summary := summary.getD "", steps := acc.2 }

/-- A response contributes a file exactly when its parsed changes list
is non-empty and its parsed path is found among the planned files. -/
def contributes (planned : List FileMetadata) (resp : String) : Bool :=
  !(parseResponse resp).file.changes.isEmpty &&
  (planned.find? (fun f => f.path == (parseResponse resp).file.path)).isSome

/-- Concrete model response editing `a.ts` with one change. -/
def cRespA : String :=
  "===FILE_START===\nPath: a.ts\nLanguage: typescript\nCode:\nlet y = 2\nChanges:\n- did y\n===FILE_END==="

/-- Concrete model response editing `b.ts` (a path outside the plan)
with one change. -/
def cRespB : String :=
  "===FILE_START===\nPath: b.ts\nLanguage: typescript\nCode:\nlet x = 1\nChanges:\n- added x\n===FILE_END==="

/-- Concrete one-file input plan containing only `a.ts`. -/
def cPlanA : Option (List FileMetadata) :=
  some [{ path := "a.ts", code := "old", language := "", changes := [] }]

/-- The file record the run on `cPlanA`/`cRespA` collects. -/
def cFileA : FileMetadata :=
  { path := "a.ts", code := "let y = 2", language := "typescript",
    changes := ["did y"] }

/-- The plan the run on `cPlanA`/`cRespA` resolves with. -/
def cResultA : WriterPlan :=
  { files := [cFileA], summary := "s", steps := [] }

end CodeWriter

namespace ChatInput

/-! Embedding of `views-ui/src/Chat/features/Chat/ChatInput.tsx`, `handleUserInput`. -/

/-- The inputs `handleUserInput` reads from the keydown event. -/
structure KeyEvent where
  key : String
  shiftKey : Bool
  value : String
  deriving DecidableEq, Repr

/-- The observable effects of one `handleUserInput` call: the arguments
passed to `onChatSubmitted` (in order), the textarea value afterwards,
and whether `preventDefault` was called. -/
structure InputEffect where
  submitted : List String
  newValue : String
  defaultPrevented : Bool
  deriving DecidableEq, Repr

/-- Embedding of `handleUserInput`: on `"Enter"` without shift and with
a non-empty value it prevents default, submits the value once, and
clears the textarea; otherwise it does nothing. -/
def handleUserInput (e : KeyEvent) : InputEffect :=
  if e.key = "Enter" then
    if e.shiftKey then
      { submitted := [], newValue := e.value, defaultPrevented := false }
    else if e.value = "" then
      { submitted := [], newValue := e.value, defaultPrevented := false }
    else
      { submitted := [e.value], newValue := "", defaultPrevented := true }
  else
    { submitted := [], newValue := e.value, defaultPrevented := false }

end ChatInput

/-! Theorems settling the claims. -/

/-- C1: the `wingman/getEmbeddings` handler never propagates an internal
error; whenever the retrieval step or the project-details step raises,
it returns the graceful fallback `{codeDocs: [], projectDetails: ""}`. -/
theorem getEmbeddings_never_throws (docs : Except String LSPServer.RetrieveResult)
    (proj : Except String (Option String))
    (h : docs.isOk = false ∨ proj.isOk = false) :
    LSPServer.getEmbeddingsHandler docs proj =
      { codeDocs := [], projectDetails := some "" } := by
  cases docs <;> cases proj <;>
    simp_all [LSPServer.getEmbeddingsHandler, Except.isOk, Except.toBool]

/-- Witness for C1: a failing retrieval step yields the fallback. -/
theorem getEmbeddings_never_throws_witness :
    LSPServer.getEmbeddingsHandler (.error "store unavailable") (.ok none) =
      { codeDocs := [], projectDetails := some "" } :=
  getEmbeddings_never_throws (.error "store unavailable") (.ok none)
    (Or.inl rfl)

/-- C2 counterexample: with `result = false` from the store's
initialization (and embeddings enabled), `postInitialize` still
constructs the Indexer, creates the queue, and attempts the index
build — refuting the claim that indexing does not start. -/
theorem postInit_counterexample :
    ¬ (LSPServer.InitAction.notifyFailedStore ∈ LSPServer.postInitTrace false true ∧
       LSPServer.InitAction.constructIndexer ∉ LSPServer.postInitTrace false true ∧
       LSPServer.InitAction.createQueue ∉ LSPServer.postInitTrace false true ∧
       LSPServer.InitAction.createIndex ∉ LSPServer.postInitTrace false true) := by
  decide

/-- C2 amended: when the store fails to open/create, the failure is
surfaced by sending `wingman/failedLoadingStore` to the client, but
initialization then continues unconditionally: the Indexer is
constructed, the queue is created, and an index build is attempted
exactly when embeddings are enabled. -/
theorem postInit_store_failure (e : Bool) (r : Bool) (h : r = false) :
    LSPServer.InitAction.notifyFailedStore ∈ LSPServer.postInitTrace r e ∧
    LSPServer.InitAction.constructIndexer ∈ LSPServer.postInitTrace r e ∧
    LSPServer.InitAction.createQueue ∈ LSPServer.postInitTrace r e ∧
    (LSPServer.InitAction.createIndex ∈ LSPServer.postInitTrace r e ↔ e = true) := by
  subst h
  cases e <;> decide

/-- Witness for C2 amended: concrete failing run with embeddings on. -/
theorem postInit_store_failure_witness :
    LSPServer.InitAction.notifyFailedStore ∈ LSPServer.postInitTrace false true ∧
    LSPServer.InitAction.constructIndexer ∈ LSPServer.postInitTrace false true ∧
    LSPServer.InitAction.createQueue ∈ LSPServer.postInitTrace false true ∧
    (LSPServer.InitAction.createIndex ∈ LSPServer.postInitTrace false true ↔ true = true) :=
  postInit_store_failure true false rfl

/-- C3 counterexample: the `wingman/getIndex` response's field names are
`exists`, `processing`, `files` — not `exists`, `syncing`, `files` as
the claim states. -/
theorem getIndex_fields_counterexample :
    (LSPServer.getIndexHandler (some true) (some false) []).map Prod.fst ≠
      ["exists", "syncing", "files"] := by
  decide

/-- C3 amended: the response is a record with exactly the fields
`exists` (from the store's `indexExists`), `processing` (from the
Indexer's `isSyncing`), and `files` (the code graph's symbol-table
keys); the syncing flag is exposed under the name `processing`. -/
theorem getIndex_fields (e s : Option Bool) (fs : List String) :
    (LSPServer.getIndexHandler e s fs).map Prod.fst =
      ["exists", "processing", "files"] ∧
    (LSPServer.getIndexHandler e s fs).lookup "exists" =
      some (.obool e) ∧
    (LSPServer.getIndexHandler e s fs).lookup "processing" =
      some (.obool s) ∧
    (LSPServer.getIndexHandler e s fs).lookup "files" =
      some (.paths fs) := by
  simp [LSPServer.getIndexHandler, List.lookup]

/-- C4 counterexample: with embeddings disabled the `fullIndexBuild`
handler returns before creating the index or calling
`processDocuments`, so no re-embedding pass is forced for the supplied
files. -/
theorem fullIndexBuild_counterexample :
    LSPServer.FullIndexAction.processDocuments ["a.ts"] true ∉
      LSPServer.fullIndexBuildHandler false id ["a.ts"] := by
  decide

/-- C4 amended: when embeddings are enabled, the handler clears the
filter cache, creates the index, and invokes
`Indexer.processDocuments` over the URI-converted paths with
`forceFull = true` (bypassing the hash-cache skip for every file). -/
theorem fullIndexBuild_forces_full (enabled : Bool)
    (filePathToUri : String → String) (files : List String)
    (h : enabled = true) :
    LSPServer.fullIndexBuildHandler enabled filePathToUri files =
      [.clearFilterCache, .createIndex,
       .processDocuments (files.map filePathToUri) true] := by
  subst h
  simp [LSPServer.fullIndexBuildHandler]

/-- Witness for C4 amended at a concrete enabled run. -/
theorem fullIndexBuild_forces_full_witness :
    LSPServer.fullIndexBuildHandler true id ["a.ts", "b.ts"] =
      [.clearFilterCache, .createIndex,
       .processDocuments ["a.ts", "b.ts"] true] := by
  have := fullIndexBuild_forces_full true id ["a.ts", "b.ts"] rfl
  simpa using this

/-- C5: the `wingman/deleteIndex` handler returns the system to the
pre-index state (empty store, graph and cache, fresh queue) by
re-running `postInitialize`, and the queue it disposes beforehand is the
old instance, which accepts no further flushes: flushing it hands no
batch to the Indexer. -/
theorem deleteIndex_resets (s : LSPServer.SystemState) :
    (LSPServer.deleteIndexHandler s).1 = LSPServer.freshSystem ∧
    ((LSPServer.deleteIndexHandler s).2).disposed = true ∧
    ((LSPServer.deleteIndexHandler s).2).flush =
      ((LSPServer.deleteIndexHandler s).2, none) ∧
    (∀ p, ((LSPServer.deleteIndexHandler s).2).enqueue p =
      (LSPServer.deleteIndexHandler s).2) := by
  refine ⟨rfl, rfl, ?_, ?_⟩ <;>
    simp [LSPServer.deleteIndexHandler, LSPServer.DocumentQueue.dispose,
      LSPServer.DocumentQueue.flush, LSPServer.DocumentQueue.enqueue]

/-- C6: installing a new inclusion filter via the
`wingman/indexerSettings` handler removes no already-indexed state:
file records, graph nodes and edges, and vector entries are unchanged;
only the filter (replaced), the filter cache and the hash cache are
touched. -/
theorem indexerSettings_frame (s : LSPServer.IndexState) (f : String) :
    (LSPServer.indexerSettingsHandler s f).fileRecords = s.fileRecords ∧
    (LSPServer.indexerSettingsHandler s f).graphNodes = s.graphNodes ∧
    (LSPServer.indexerSettingsHandler s f).graphEdges = s.graphEdges ∧
    (LSPServer.indexerSettingsHandler s f).vectorEntries = s.vectorEntries ∧
    (LSPServer.indexerSettingsHandler s f).inclusionFilter = f := by
  simp [LSPServer.indexerSettingsHandler, LSPServer.clearCache,
    LSPServer.setInclusionFilter, LSPServer.clearFilterCache]

/-- C7: the read path is deterministic — two calls to
`retrieveDocumentsWithRelatedCode` with identical store contents, graph,
query embedding and bounds return the same ranked path list. -/
theorem query_deterministic (s₁ s₂ : List VectorQuery.VectorEntry)
    (g₁ g₂ : List (String × String)) (q₁ q₂ : List Int) (k₁ k₂ c₁ c₂ : Nat)
    (hs : s₁ = s₂) (hg : g₁ = g₂) (hq : q₁ = q₂) (hk : k₁ = k₂)
    (hc : c₁ = c₂) :
    VectorQuery.retrieveDocumentsWithRelatedCode s₁ g₁ q₁ k₁ c₁ =
      VectorQuery.retrieveDocumentsWithRelatedCode s₂ g₂ q₂ k₂ c₂ := by
  subst hs hg hq hk hc
  rfl

/-- Witness for C7: two runs on a concrete two-entry store and one-edge
graph agree, and the pipeline evaluates to the expected ranked list
(top hit first, then its depth-1 expansion). -/
theorem query_deterministic_witness :
    VectorQuery.retrieveDocumentsWithRelatedCode
        [⟨"a.ts", [1, 0]⟩, ⟨"b.ts", [3, 1]⟩] [("b.ts", "c.ts")] [2, 1] 1 2 =
      VectorQuery.retrieveDocumentsWithRelatedCode
        [⟨"a.ts", [1, 0]⟩, ⟨"b.ts", [3, 1]⟩] [("b.ts", "c.ts")] [2, 1] 1 2 ∧
    VectorQuery.retrieveDocumentsWithRelatedCode
        [⟨"a.ts", [1, 0]⟩, ⟨"b.ts", [3, 1]⟩] [("b.ts", "c.ts")] [2, 1] 1 2 =
      ["b.ts", "c.ts"] :=
  ⟨query_deterministic _ _ _ _ _ _ 1 1 2 2 rfl rfl rfl rfl rfl, by decide⟩

/-- C10: a keydown submits iff the key is Enter, shift is not held and
the value is non-empty; then `onChatSubmitted` fires exactly once with
the value, default is prevented and the value is cleared; in every
other case nothing is submitted and the value is unchanged. -/
theorem chatInput_submit_iff (e : ChatInput.KeyEvent) :
    (((ChatInput.handleUserInput e).submitted ≠ []) ↔
      (e.key = "Enter" ∧ e.shiftKey = false ∧ e.value ≠ "")) ∧
    ((e.key = "Enter" ∧ e.shiftKey = false ∧ e.value ≠ "") →
      ChatInput.handleUserInput e =
        { submitted := [e.value], newValue := "", defaultPrevented := true }) ∧
    (¬ (e.key = "Enter" ∧ e.shiftKey = false ∧ e.value ≠ "") →
      ChatInput.handleUserInput e =
        { submitted := [], newValue := e.value, defaultPrevented := false }) := by
  obtain ⟨k, sh, v⟩ := e
  simp only [ChatInput.handleUserInput]
  by_cases hk : k = "Enter" <;> by_cases hsh : sh = true <;> by_cases hv : v = "" <;>
    simp_all

/-- Witness for C10 at a concrete event: Enter with no shift and value
"hi" submits exactly ["hi"]. -/
theorem chatInput_submit_iff_witness :
    ChatInput.handleUserInput ⟨"Enter", false, "hi"⟩ =
      { submitted := ["hi"], newValue := "", defaultPrevented := true } :=
  (chatInput_submit_iff ⟨"Enter", false, "hi"⟩).2.1
    (by exact ⟨rfl, rfl, by decide⟩)

/-- Helper: one `writerIter` either keeps the collected files or appends
exactly one record. -/
theorem writerIter_files_shape (planned : List CodeWriter.FileMetadata)
    (acc : List CodeWriter.FileMetadata × List CodeWriter.Step) (resp : String) :
    (CodeWriter.writerIter planned acc resp).1 = acc.1 ∨
    ∃ x, (CodeWriter.writerIter planned acc resp).1 = acc.1 ++ [x] := by
  unfold CodeWriter.writerIter
  dsimp only
  split
  · split
    · exact Or.inr ⟨_, rfl⟩
    · exact Or.inl rfl
  · exact Or.inl rfl

/-- Helper: the collected-files list only grows across the loop. -/
theorem foldl_writerIter_append (planned : List CodeWriter.FileMetadata)
    (invoke : Nat → String) (is : List Nat) :
    ∀ acc : List CodeWriter.FileMetadata × List CodeWriter.Step,
      ∃ l, ((is.foldl (fun a i => CodeWriter.writerIter planned a (invoke i)) acc).1 =
        acc.1 ++ l) := by
  induction is with
  | nil => exact fun acc => ⟨[], by simp⟩
  | cons i is ih =>
    intro acc
    obtain ⟨l, hl⟩ := ih (CodeWriter.writerIter planned acc (invoke i))
    rcases writerIter_files_shape planned acc (invoke i) with h | ⟨x, h⟩
    · exact ⟨l, by simpa [h] using hl⟩
    · exact ⟨[x] ++ l, by simp [List.foldl_cons, hl, h]⟩

/-- Helper: starting from no collected files, one iteration collects a
file exactly when the response contributes one. -/
theorem writerIter_nil (planned : List CodeWriter.FileMetadata)
    (st : List CodeWriter.Step) (resp : String) :
    ((CodeWriter.writerIter planned ([], st) resp).1 = [] ↔
      CodeWriter.contributes planned resp = false) := by
  unfold CodeWriter.writerIter CodeWriter.contributes
  dsimp only
  cases h1 : (CodeWriter.parseResponse resp).file.changes.isEmpty <;>
    cases h2 : planned.find?
        (fun f => f.path == (CodeWriter.parseResponse resp).file.path) <;>
      simp [h1, h2]

/-- Helper: the loop collects no file at all exactly when no response
contributes one. -/
theorem foldl_files_empty_iff (planned : List CodeWriter.FileMetadata)
    (invoke : Nat → String) (is : List Nat) :
    ∀ acc : List CodeWriter.FileMetadata × List CodeWriter.Step, acc.1 = [] →
      (((is.foldl (fun a i => CodeWriter.writerIter planned a (invoke i)) acc).1 = []) ↔
        ∀ i ∈ is, CodeWriter.contributes planned (invoke i) = false) := by
  induction is with
  | nil => intro acc hacc; simpa using hacc
  | cons i is ih =>
    intro acc hacc
    obtain ⟨l, st⟩ := acc
    simp only at hacc
    subst hacc
    by_cases hc : CodeWriter.contributes planned (invoke i) = false
    · have hnil : (CodeWriter.writerIter planned ([], st) (invoke i)).1 = [] :=
        (writerIter_nil planned st (invoke i)).mpr hc
      have := ih (CodeWriter.writerIter planned ([], st) (invoke i)) hnil
      simp only [List.foldl_cons, List.mem_cons]
      rw [this]
      constructor
      · intro h j hj
        rcases hj with hj | hj
        · subst hj; exact hc
        · exact h j hj
      · intro h j hj
        exact h j (Or.inr hj)
    · have hne : (CodeWriter.writerIter planned ([], st) (invoke i)).1 ≠ [] := by
        intro h
        exact hc ((writerIter_nil planned st (invoke i)).mp h)
      obtain ⟨l', hl'⟩ := foldl_writerIter_append planned invoke is
        (CodeWriter.writerIter planned ([], st) (invoke i))
      simp only [List.foldl_cons, List.mem_cons]
      rw [hl']
      constructor
      · intro h
        exact absurd (List.append_eq_nil.mp h).1 hne
      · intro h
        exact absurd (h i (Or.inl rfl)) hc

/-- Helper: every record one iteration collects has a non-empty changes
list and a path drawn from the planned files. -/
theorem writerIter_inv (planned : List CodeWriter.FileMetadata)
    (acc : List CodeWriter.FileMetadata × List CodeWriter.Step) (resp : String)
    (hacc : ∀ f ∈ acc.1, f.changes ≠ [] ∧
      f.path ∈ planned.map CodeWriter.FileMetadata.path) :
    ∀ f ∈ (CodeWriter.writerIter planned acc resp).1,
      f.changes ≠ [] ∧ f.path ∈ planned.map CodeWriter.FileMetadata.path := by
  intro f hf
  unfold CodeWriter.writerIter at hf
  dsimp only at hf
  by_cases hcond :
      (!(acc.1.any (fun g => g.path == (CodeWriter.parseResponse resp).file.path)) &&
        !(CodeWriter.parseResponse resp).file.changes.isEmpty) = true
  · rw [if_pos hcond] at hf
    cases hfind : planned.find?
        (fun g => g.path == (CodeWriter.parseResponse resp).file.path) with
    | none => rw [hfind] at hf; exact hacc f hf
    | some stateFile =>
      rw [hfind] at hf
      rcases List.mem_append.mp hf with h | h
      · exact hacc f h
      · have hx : f = { stateFile with
            language := (CodeWriter.parseResponse resp).file.markdownLanguage,
            code := (CodeWriter.parseResponse resp).file.code,
            changes := (CodeWriter.parseResponse resp).file.changes } := by
          simpa using h
        have hch : (CodeWriter.parseResponse resp).file.changes ≠ [] := by
          have := (Bool.and_eq_true _ _).mp hcond
          simpa [List.isEmpty_iff] using this.2
        have hmem : stateFile ∈ planned := List.mem_of_find?_eq_some hfind
        subst hx
        refine ⟨hch, ?_⟩
        exact List.mem_map.mpr ⟨stateFile, hmem, rfl⟩
  · rw [if_neg hcond] at hf
    exact hacc f hf

/-- Helper: the collected-records invariant holds across the loop. -/
theorem foldl_writerIter_inv (planned : List CodeWriter.FileMetadata)
    (invoke : Nat → String) (is : List Nat) :
    ∀ acc : List CodeWriter.FileMetadata × List CodeWriter.Step,
      (∀ f ∈ acc.1, f.changes ≠ [] ∧
        f.path ∈ planned.map CodeWriter.FileMetadata.path) →
      ∀ f ∈ (is.foldl (fun a i => CodeWriter.writerIter planned a (invoke i)) acc).1,
        f.changes ≠ [] ∧ f.path ∈ planned.map CodeWriter.FileMetadata.path := by
  induction is with
  | nil => intro acc hacc; simpa using hacc
  | cons i is ih =>
    intro acc hacc
    exact ih _ (writerIter_inv planned acc (invoke i) hacc)

/-- C8: `parseResponse` is total by construction, and degrades to the
defaults: when the STEPS section is absent or malformed the parsed
steps are `[]`, and when the FILE section is absent or malformed the
file record has empty path, code and markdownLanguage and `changes = []`;
no input produces an error. -/
theorem parseResponse_total_default (r : String) :
    (CodeWriter.extractSection CodeWriter.STEPS_START CodeWriter.STEPS_END r = "" →
      (CodeWriter.parseResponse r).steps = []) ∧
    (CodeWriter.extractSection CodeWriter.FILE_START CodeWriter.FILE_END r = "" →
      (CodeWriter.parseResponse r).file =
        { path := "", code := "", markdownLanguage := "", changes := [] }) := by
  constructor <;> intro h <;> simp [CodeWriter.parseResponse, h]

/-- Witness for C8: a string with no delimiters at all parses to the
default response. -/
theorem parseResponse_total_default_witness :
    (CodeWriter.parseResponse "hello").steps = [] ∧
    (CodeWriter.parseResponse "hello").file =
      { path := "", code := "", markdownLanguage := "", changes := [] } :=
  ⟨(parseResponse_total_default "hello").1 (by decide),
   (parseResponse_total_default "hello").2 (by decide)⟩

/-- C9 counterexample: on a plan containing only `a.ts`, a model
response for the unknown path `b.ts` with a non-empty changes list
still makes `codeWriterStep` throw `NoFilesChangedError` — refuting
"throws exactly when no model response produced a file with a
non-empty changes list". -/
theorem codeWriter_counterexample :
    CodeWriter.codeWriterStep CodeWriter.cPlanA (some "s")
        (fun _ => CodeWriter.cRespB) =
      Except.error "No files have been changed." ∧
    (CodeWriter.parseResponse CodeWriter.cRespB).file.changes = ["added x"] :=
  ⟨rfl, rfl⟩

/-- C9 amended: `codeWriterStep` throws `NoFilesChangedError` exactly
when no model response contributes a file, i.e. none has both a
non-empty parsed changes list and a path found in the input plan (a
response for an unknown path is dropped and counts for nothing); and
when it resolves, every listed file has a non-empty changes list and a
path present in the input plan. -/
theorem codeWriter_throw_iff (planFiles : Option (List CodeWriter.FileMetadata))
    (summary : Option String) (invoke : Nat → String) :
    ((CodeWriter.codeWriterStep planFiles summary invoke =
        Except.error "No files have been changed.") ↔
      ∀ i < (CodeWriter.iterFiles planFiles).length,
        CodeWriter.contributes (planFiles.getD []) (invoke i) = false) ∧
    (∀ r, CodeWriter.codeWriterStep planFiles summary invoke = Except.ok r →
      ∀ f ∈ r.files, f.changes ≠ [] ∧
        f.path ∈ (planFiles.getD []).map CodeWriter.FileMetadata.path) := by
  unfold CodeWriter.codeWriterStep
  dsimp only
  set acc := (List.range (CodeWriter.iterFiles planFiles).length).foldl
    (fun a i => CodeWriter.writerIter (planFiles.getD []) a (invoke i)) ([], []) with hacc
  have hempty := foldl_files_empty_iff (planFiles.getD []) invoke
    (List.range (CodeWriter.iterFiles planFiles).length) ([], []) rfl
  constructor
  · cases h : acc.1.isEmpty
    · rw [if_neg (by simp [h])]
      have hne : acc.1 ≠ [] := by simpa [List.isEmpty_iff] using h
      constructor
      · intro habs; exact absurd habs (by simp)
      · intro hall
        exact absurd (hempty.mpr (by simpa [List.mem_range] using hall))
          (by simp_all [hacc])
    · rw [if_pos (by simp [h])]
      have hnil : acc.1 = [] := by simpa [List.isEmpty_iff] using h
      simp only [true_iff]
      intro i hi
      exact (hempty.mp (by simp_all [hacc])) i (List.mem_range.mpr hi)
  · intro r hr
    cases h : acc.1.isEmpty
    · rw [if_neg (by simp [h])] at hr
      have hfiles : r.files = acc.1 := by
        cases hr; rfl
      rw [hfiles, hacc]
      exact foldl_writerIter_inv (planFiles.getD []) invoke
        (List.range (CodeWriter.iterFiles planFiles).length) ([], []) (by simp)
    · rw [if_pos (by simp [h])] at hr
      exact absurd hr (by simp)

/-- Witness for C9 amended: a concrete resolving run on the plan
`[a.ts]` with a contributing response; the collected file has the
non-empty changes list and its path comes from the plan. -/
theorem codeWriter_throw_iff_witness :
    CodeWriter.cFileA.changes ≠ [] ∧
    CodeWriter.cFileA.path ∈
      (CodeWriter.cPlanA.getD []).map CodeWriter.FileMetadata.path :=
  (codeWriter_throw_iff CodeWriter.cPlanA (some "s")
      (fun _ => CodeWriter.cRespA)).2 CodeWriter.cResultA rfl
    CodeWriter.cFileA (by decide)
